import Mathlib

/-!
Shallow embedding of the m5atoms3-socket recorder's buffered writer
(src/unnamed/part_001, the writer module) and of the recorder's line-gated
state machine (src/recorder/src/main.ino), with theorems settling the
frozen claims about them.

Modelling conventions for the writer module:
* The module's global variables (state, mutex, queue, events, task,
  buff_plane1, buff_plane2, cur_buff, used) become the fields of `WState`.
  FreeRTOS handles are modelled as `Bool` (true = the handle is non-NULL);
  taking a mutex with `portMAX_DELAY` succeeds exactly when the handle
  exists, and taking a NULL handle is modelled as returning failure
  (the RTOS is an external collaborator; the module only observes the
  failure return).
* `cur_buff` is a pointer equal to either `buff_plane1` or `buff_plane2`;
  it is modelled by the selector `cur : Bool` (false = plane 1).
* A queue send with `portMAX_DELAY` blocks until space is available and
  then succeeds; it is modelled as always succeeding.  The field `sent`
  is the trace of commands enqueued, oldest first, which is exactly the
  order in which the FIFO queue delivers them to the worker task.
* A `Command` in C carries a pointer into one of the planes plus a byte
  count; the model carries the plane selector, the count, and `data`: the
  bytes that the pointer/count pair designates at enqueue time.  This is
  the region the worker reads, faithful under the module's double-buffer
  ownership contract (the producer does not rewrite a queued plane before
  the worker drains it).
-/

/-- Capacity of each buffer plane (BUFF_SIZE in the source). -/
def BUFF_SIZE : Nat := 8192

/-- Error code used by the module.  The source uses the line number
(DEFAULT_ERROR is defined as the preprocessor line macro), so each site
returns some nonzero value; only nonzero-ness is observable to callers,
and the model uses the constant 1. -/
def DEFAULT_ERROR : Nat := 1

/-- Opcode of a writer command (struct Command's op field). -/
inductive Op where
  | OP_FLUSH
  | OP_EXIT
deriving DecidableEq

/-- A command sent from the producer to the writer task (struct Command).
`data` holds the bytes designated by the C pointer/size pair at enqueue
time; `plane` records which buffer plane the pointer aims at. -/
structure Command where
  op : Op
  data : List UInt8
  plane : Bool
  size : Nat
deriving DecidableEq

/-- The writer module's global state: `st` is the variable named state
(0 = not started, 1 = running, 2 = finished-transient), the four Bools
are the FreeRTOS handles (true = non-NULL), `plane1`/`plane2` are
buff_plane1/buff_plane2, `cur` selects cur_buff (false = plane 1),
`used` is the fill length, and `sent` is the trace of enqueued
commands in send order. -/
structure WState where
  st : Nat
  mutex : Bool
  queue : Bool
  events : Bool
  task : Bool
  plane1 : List UInt8
  plane2 : List UInt8
  cur : Bool
  used : Nat
  sent : List Command
deriving DecidableEq

/-- The module's state at program start: statics zero-initialised,
cur_buff = buff_plane1. -/
def winit : WState :=
  { st := 0, mutex := false, queue := false, events := false, task := false,
    plane1 := List.replicate BUFF_SIZE 0, plane2 := List.replicate BUFF_SIZE 0,
    cur := false, used := 0, sent := [] }

/-- The plane cur_buff points at. -/
def WState.active (w : WState) : List UInt8 :=
  if w.cur then w.plane2 else w.plane1

/-- Embedding of push_byte: append b at index used of the active plane,
increment used, and on reaching BUFF_SIZE enqueue an OP_FLUSH command
for the filled plane, swap cur_buff to the other plane, reset used, and
mark the edge flag dst.  The queue send (portMAX_DELAY) is modelled as
succeeding, so the return code is 0. -/
def push_byte (b : UInt8) (dst : Bool) (w : WState) : Nat × WState × Bool :=
  let buf := (w.active).set w.used b
  let w1 := if w.cur then { w with plane2 := buf, used := w.used + 1 }
                     else { w with plane1 := buf, used := w.used + 1 }
  if w1.used = BUFF_SIZE then
    let cmd : Command := ⟨Op.OP_FLUSH, buf.take BUFF_SIZE, w.cur, BUFF_SIZE⟩
    let w2 := { w1 with sent := w1.sent ++ [cmd],
                        cur := !w.cur,
                        used := 0 }
    (0, w2, if dst = false then true else dst)
  else
    (0, w1, dst)

/-- Embedding of writer_start.  `pathNull` models path == NULL; the four
oracle Bools model whether each FreeRTOS allocation (queue, mutex, event
group, task) succeeds.  The body mirrors the source block for block,
including the final statement, which returns the literal 0 rather than
the computed ret, and the error-path cleanup, which deletes whatever
handles are currently non-NULL (including those of an open session). -/
def writer_start (pathNull qOk mOk eOk tOk : Bool) (w : WState) : Nat × WState :=
  let r1 : Nat := if pathNull then DEFAULT_ERROR else 0
  let r2 : Nat := if w.st ≠ 0 then DEFAULT_ERROR else r1
  let (r3, w3) := if r2 = 0 then
      (if qOk then (0, { w with queue := true }) else (DEFAULT_ERROR, w))
    else (r2, w)
  let (r4, w4) := if r3 = 0 then
      (if mOk then (0, { w3 with mutex := true }) else (DEFAULT_ERROR, w3))
    else (r3, w3)
  let (r5, w5) := if r4 = 0 then
      (if eOk then (0, { w4 with events := true }) else (DEFAULT_ERROR, w4))
    else (r4, w4)
  let (r6, w6) := if r5 = 0 then
      (if tOk then (0, { w5 with task := true }) else (DEFAULT_ERROR, w5))
    else (r5, w5)
  let w7 := if r6 = 0 then { w6 with st := 1 } else w6
  let w8 := if r6 ≠ 0 then
      { w7 with queue := false, mutex := false, events := false, task := false }
    else w7
  (0, w8)

/-- Embedding of writer_puts' for loop over the bytes of the argument
string (the bytes before the NUL terminator), threading the wrote flag
through push_byte and breaking on a nonzero push_byte return. -/
def puts_loop : List UInt8 → Bool → WState → Nat × WState × Bool
  | [], wrote, w => (0, w, wrote)
  | b :: rest, wrote, w =>
    let r := push_byte b wrote w
    if r.1 ≠ 0 then (DEFAULT_ERROR, r.2.1, r.2.2)
    else puts_loop rest r.2.2 r.2.1

/-- Embedding of writer_puts.  The C string argument is modelled as the
list of its bytes up to (excluding) the NUL terminator.  The result's
third component models the out-parameter dst: some v when the source
stores v through dst (only on success), none when dst is not written. -/
def writer_puts (s : List UInt8) (w : WState) : Nat × WState × Option Bool :=
  if w.mutex then
    if w.st ≠ 1 then (DEFAULT_ERROR, w, none)
    else
      let r := puts_loop s false w
      if r.1 ≠ 0 then (r.1, r.2.1, none)
      else (0, r.2.1, some r.2.2)
  else (DEFAULT_ERROR, w, none)

/-- Embedding of writer_push; as for writer_puts, the third component
models the dst out-parameter. -/
def writer_push (b : UInt8) (w : WState) : Nat × WState × Option Bool :=
  if w.mutex then
    if w.st ≠ 1 then (DEFAULT_ERROR, w, none)
    else
      let r := push_byte b false w
      if r.1 ≠ 0 then (DEFAULT_ERROR, r.2.1, none)
      else (0, r.2.1, some r.2.2)
  else (DEFAULT_ERROR, w, none)

/-- Embedding of writer_finish.  When the mutex take succeeds, ret is 0,
so the source's state check (written `if (ret)` rather than `if (!ret)`)
is skipped and the function unconditionally enqueues OP_EXIT with
cur_buff and used, waits for the task-complete event, and then releases
every resource and resets the statics (cur_buff = plane 1, used = 0,
state = 0, after the transient state = 2).  When the take fails, ret is
already nonzero, the (re-)assignment inside the state check leaves it
nonzero, and nothing else happens. -/
def writer_finish (w : WState) : Nat × WState :=
  if w.mutex then
    let cmd : Command := ⟨Op.OP_EXIT, (w.active).take w.used, w.cur, w.used⟩
    (0, { w with sent := w.sent ++ [cmd],
                 mutex := false, queue := false, events := false, task := false,
                 cur := false, used := 0, st := 0 })
  else
    (DEFAULT_ERROR, w)

/-!
Embedding of writer_task_func, the flush-worker task.  The storage file
is an external collaborator (SdFat); its open/write/sync outcomes are
oracle parameters: `openOk` is whether file.open succeeds, and
`wOk n` / `sOk n` are the outcomes of the n-th physical write attempt's
file.write and file.sync calls (counting attempts from 0).
-/

/-- Accumulated result of one run of the worker loop: the payloads for
which a physical file.write was issued, in order; the error flag at loop
end; the index of the next write attempt; how many commands were
received from the queue; and whether the loop broke out via OP_EXIT. -/
structure LoopOut where
  attempts : List (List UInt8)
  error : Bool
  nw : Nat
  consumed : Nat
  exited : Bool
deriving DecidableEq

/-- Embedding of the command-receive loop of writer_task_func over the
list of commands the queue delivers (in send order).  For each received
command: when no error has been recorded and the size is nonzero, a
physical write of the command's data is attempted (file.write must
write the full size, then file.sync must succeed; either failure sets
the error flag); then the loop breaks if the opcode is OP_EXIT.  If the
list is exhausted without OP_EXIT the task is still blocked on the
queue, so `exited` is false. -/
def writer_task_loop (wOk sOk : Nat → Bool) :
    List Command → Bool → Nat → LoopOut
  | [], error, n => ⟨[], error, n, 0, false⟩
  | cmd :: rest, error, n =>
    let doWrite := !error && decide (cmd.size > 0)
    let att := if doWrite then [cmd.data] else []
    let error2 := if doWrite then (if wOk n then !(sOk n) else true) else error
    let n2 := if doWrite then n + 1 else n
    if cmd.op = Op.OP_EXIT then
      ⟨att, error2, n2, 1, true⟩
    else
      let r := writer_task_loop wOk sOk rest error2 n2
      ⟨att ++ r.attempts, r.error, r.nw, 1 + r.consumed, r.exited⟩

/-- Observable outcome of one run of writer_task_func. -/
structure TaskRun where
  attempts : List (List UInt8)
  error : Bool
  consumed : Nat
  closed : Bool
  signaled : Bool
  terminated : Bool
deriving DecidableEq

/-- Embedding of writer_task_func: the error flag starts as the negation
of file.open's success, the receive loop runs, and after the loop breaks
the file is closed, the TASK_COMPLETE event bit is set, and the task
deletes itself — those three happen exactly when the loop exited via
OP_EXIT. -/
def writer_task_run (openOk : Bool) (wOk sOk : Nat → Bool)
    (cmds : List Command) : TaskRun :=
  let r := writer_task_loop wOk sOk cmds (!openOk) 0
  { attempts := r.attempts, error := r.error, consumed := r.consumed,
    closed := r.exited, signaled := r.exited, terminated := r.exited }

/-!
Embedding of the recorder's state machine (src/recorder/src/main.ino).
The state-handler functions return the next value of the state variable
together with the list of byte-sink operations they perform, in order.
LED updates and the monitor Serial output are side channels with no
effect on control flow and are not modelled.
-/

/-- State code ST_IDLE. -/
def ST_IDLE : Nat := 0

/-- State code ST_READY. -/
def ST_READY : Nat := 1

/-- State code ST_RECORD. -/
def ST_RECORD : Nat := 2

/-- State code ST_FIN. -/
def ST_FIN : Nat := 3

/-- State code ST_ERROR. -/
def ST_ERROR : Nat := 4

/-- A call the recorder makes into the writer module during one tick. -/
inductive SinkEvt where
  | start
  | puts (s : List UInt8)
  | push (b : UInt8)
  | finish
deriving DecidableEq

/-- UTF-8 byte-order marker written right after writer_start (the C
string literal of three bytes EF BB BF). -/
def utf8_bom : List UInt8 := [0xef, 0xbb, 0xbf]

/-- UTF-8 bytes of the CSV header line written after the BOM: the
quoted Japanese column names for timestamp, voltage, current and power
consumption, separated by commas and ending in a newline. -/
def csv_header : List UInt8 :=
  [34, 227, 130, 191, 227, 130, 164, 227, 131, 160, 227, 130, 185, 227,
   130, 191, 227, 131, 179, 227, 131, 151, 34, 44, 34, 233, 155, 187,
   229, 156, 167, 34, 44, 34, 233, 155, 187, 230, 181, 129, 34, 44, 34,
   230, 182, 136, 232, 178, 187, 233, 155, 187, 229, 138, 155, 34, 10]

/-- Sink calls made by start_writer_task: writer_start with the chosen
path, then writer_puts of the BOM, then writer_puts of the CSV header. -/
def start_writer_evts : List SinkEvt :=
  [SinkEvt.start, SinkEvt.puts utf8_bom, SinkEvt.puts csv_header]

/-- Embedding of do_idle_state_proc: on a button hold, transition to
ST_READY and run start_writer_task; otherwise nothing. -/
def do_idle_state_proc (ch : UInt8) (btn : Bool) : Nat × List SinkEvt :=
  if btn then (ST_READY, start_writer_evts) else (ST_IDLE, [])

/-- Embedding of do_ready_state_proc: a hold stops the writer task and
returns to ST_IDLE; otherwise a newline moves to ST_RECORD; any other
byte (including the no-input NUL) is discarded. -/
def do_ready_state_proc (ch : UInt8) (btn : Bool) : Nat × List SinkEvt :=
  if btn then (ST_IDLE, [SinkEvt.finish])
  else if ch = 10 then (ST_RECORD, [])
  else (ST_READY, [])

/-- Embedding of do_record_state_proc's switch on the received byte:
NUL (no input) outputs nothing and moves to ST_FIN on a hold; a newline
is output, and with a simultaneous hold the writer task is stopped and
the state returns directly to ST_IDLE; any other byte is output and a
hold moves to ST_FIN. -/
def do_record_state_proc (ch : UInt8) (btn : Bool) : Nat × List SinkEvt :=
  if ch = 0 then
    (if btn then (ST_FIN, []) else (ST_RECORD, []))
  else if ch = 10 then
    (if btn then (ST_IDLE, [SinkEvt.push 10, SinkEvt.finish])
     else (ST_RECORD, [SinkEvt.push 10]))
  else
    (if btn then (ST_FIN, [SinkEvt.push ch]) else (ST_RECORD, [SinkEvt.push ch]))

/-- Embedding of do_fin_state_proc's switch: NUL is ignored; a newline
is output, the writer task is stopped, and the state returns to
ST_IDLE; any other byte is output and the state stays ST_FIN; the
button is ignored. -/
def do_fin_state_proc (ch : UInt8) (btn : Bool) : Nat × List SinkEvt :=
  if ch = 0 then (ST_FIN, [])
  else if ch = 10 then (ST_IDLE, [SinkEvt.push 10, SinkEvt.finish])
  else (ST_FIN, [SinkEvt.push ch])

/-- Embedding of one pass of loop(): the received byte is the serial
byte when one is available and NUL otherwise (modelled by an Option
argument), and the switch dispatches on the state variable (ST_ERROR
and any other value do nothing). -/
def loop_tick (st : Nat) (inp : Option UInt8) (btn : Bool) : Nat × List SinkEvt :=
  let ch := inp.getD 0
  if st = ST_IDLE then do_idle_state_proc ch btn
  else if st = ST_READY then do_ready_state_proc ch btn
  else if st = ST_RECORD then do_record_state_proc ch btn
  else if st = ST_FIN then do_fin_state_proc ch btn
  else (st, [])

/-- Iterated loop(): returns the list of states after each tick and the
concatenated sink calls of all ticks. -/
def run_ticks : Nat → List (Option UInt8 × Bool) → List Nat × List SinkEvt
  | _, [] => ([], [])
  | st, (inp, btn) :: rest =>
    let r := loop_tick st inp btn
    let rr := run_ticks r.1 rest
    (r.1 :: rr.1, r.2 ++ rr.2)

/-- Bytes pushed into the byte sink by a list of sink calls (each
writer_puts contributes its bytes, each writer_push its byte). -/
def pushedBytes : List SinkEvt → List UInt8
  | [] => []
  | SinkEvt.puts s :: es => s ++ pushedBytes es
  | SinkEvt.push b :: es => b :: pushedBytes es
  | SinkEvt.start :: es => pushedBytes es
  | SinkEvt.finish :: es => pushedBytes es

/-!
Session-level definitions used to state the claims.
-/

/-- The writer states reachable from program start through the module's
public operations, with arbitrary arguments and arbitrary allocation
outcomes. -/
inductive Reachable : WState → Prop
  | init : Reachable winit
  | start (pn q m e t : Bool) (w : WState) :
      Reachable w → Reachable (writer_start pn q m e t w).2
  | push (b : UInt8) (w : WState) :
      Reachable w → Reachable (writer_push b w).2.1
  | puts (s : List UInt8) (w : WState) :
      Reachable w → Reachable (writer_puts s w).2.1
  | finish (w : WState) :
      Reachable w → Reachable (writer_finish w).2

/-- The module state right after a successful writer_start from program
start: session open, all handles live, buffers empty. -/
abbrev wopen : WState := (writer_start false true true true true winit).2

/-- One data-producing call of an open session. -/
inductive WCall where
  | push (b : UInt8)
  | puts (s : List UInt8)

/-- The bytes a list of calls passes to the writer, in call order. -/
def callBytes : List WCall → List UInt8
  | [] => []
  | WCall.push b :: cs => b :: callBytes cs
  | WCall.puts s :: cs => s ++ callBytes cs

/-- Run a list of writer_push/writer_puts calls; the Bool is true when
every call returned 0 (the run stops at the first failing call). -/
def runCalls : List WCall → WState → WState × Bool
  | [], w => (w, true)
  | c :: cs, w =>
    let r : Nat × WState × Option Bool :=
      match c with
      | WCall.push b => writer_push b w
      | WCall.puts s => writer_puts s w
    if r.1 = 0 then runCalls cs r.2.1 else (r.2.1, false)

/-- Run writer_push once per byte of the list; returns the final state
and, per call, the return code and the value stored through dst. -/
def pushRun : List UInt8 → WState → WState × List (Nat × Option Bool)
  | [], w => (w, [])
  | b :: bs, w =>
    let r := writer_push b w
    let rr := pushRun bs r.2.1
    (rr.1, (r.1, r.2.2) :: rr.2)

/-- Concatenation of the payloads of all commands enqueued so far. -/
def sentBytes (w : WState) : List UInt8 := (w.sent.map Command.data).flatten

/-- All bytes the session has accepted: the payloads already enqueued
followed by the filled prefix of the active plane. -/
def bufferedBytes (w : WState) : List UInt8 :=
  sentBytes w ++ (w.active).take w.used

/-!
The module invariant and its preservation by every public operation.
-/

/-- Invariant of the writer module: both planes keep their capacity,
the fill length stays below the capacity, and whenever no session is
open (state differs from 1) the mutex handle is NULL. -/
def WInv (w : WState) : Prop :=
  w.plane1.length = BUFF_SIZE ∧ w.plane2.length = BUFF_SIZE ∧
  w.used < BUFF_SIZE ∧ (w.st ≠ 1 → w.mutex = false)

/-- push_byte always reports success (the queue send is modelled as
succeeding under portMAX_DELAY). -/
theorem push_byte_ret (b : UInt8) (d : Bool) (w : WState) :
    (push_byte b d w).1 = 0 := by
  unfold push_byte
  by_cases hc : w.cur <;> by_cases hN : w.used = 8191 <;>
    simp [hc, hN, BUFF_SIZE]

/-- push_byte preserves the module invariant and does not touch the
state variable or the mutex handle. -/
theorem push_byte_winv (b : UInt8) (d : Bool) (w : WState) (h : WInv w) :
    WInv (push_byte b d w).2.1 ∧ (push_byte b d w).2.1.st = w.st ∧
    (push_byte b d w).2.1.mutex = w.mutex := by
  obtain ⟨h1, h2, h3, h4⟩ := h
  have hB : BUFF_SIZE = 8192 := rfl
  unfold push_byte WInv
  by_cases hc : w.cur <;> by_cases hN : w.used + 1 = BUFF_SIZE <;>
    simp [hc, hN, WState.active, h1, h2, h4, List.length_set] <;>
    exact ⟨by omega, h4⟩

/-- The writer_puts loop preserves the module invariant and does not
touch the state variable or the mutex handle. -/
theorem puts_loop_winv (s : List UInt8) (d : Bool) (w : WState) (h : WInv w) :
    WInv (puts_loop s d w).2.1 ∧ (puts_loop s d w).2.1.st = w.st ∧
    (puts_loop s d w).2.1.mutex = w.mutex := by
  induction s generalizing d w with
  | nil => exact ⟨h, rfl, rfl⟩
  | cons b rest ih =>
    have hp := push_byte_winv b d w h
    have h0 : (push_byte b d w).1 = 0 := push_byte_ret b d w
    have hr := ih (push_byte b d w).2.2 (push_byte b d w).2.1 hp.1
    simp only [puts_loop, h0, ne_eq, not_true_eq_false, if_false, ite_false,
      not_false_eq_true, if_true, ite_true, reduceIte]
    exact ⟨hr.1, hr.2.1.trans hp.2.1, hr.2.2.trans hp.2.2⟩

/-- writer_push preserves the module invariant. -/
theorem writer_push_winv (b : UInt8) (w : WState) (h : WInv w) :
    WInv (writer_push b w).2.1 := by
  unfold writer_push
  by_cases hm : w.mutex
  · by_cases hs : w.st ≠ 1
    · simpa [hm, hs] using h
    · have hp := push_byte_winv b false w h
      have h0 : (push_byte b false w).1 = 0 := push_byte_ret b false w
      simpa [hm, hs, h0] using hp.1
  · simpa [hm] using h

/-- writer_puts preserves the module invariant. -/
theorem writer_puts_winv (s : List UInt8) (w : WState) (h : WInv w) :
    WInv (writer_puts s w).2.1 := by
  unfold writer_puts
  by_cases hm : w.mutex
  · by_cases hs : w.st ≠ 1
    · simpa [hm, hs] using h
    · have hp := puts_loop_winv s false w h
      by_cases h0 : (puts_loop s false w).1 = 0
      · simpa [hm, hs, h0] using hp.1
      · simpa [hm, hs, h0] using hp.1
  · simpa [hm] using h

/-- writer_finish preserves the module invariant. -/
theorem writer_finish_winv (w : WState) (h : WInv w) :
    WInv (writer_finish w).2 := by
  obtain ⟨h1, h2, h3, h4⟩ := h
  have hB : BUFF_SIZE = 8192 := rfl
  unfold writer_finish WInv
  by_cases hm : w.mutex <;> simp [hm, h1, h2, h4] <;> omega

/-- writer_start preserves the module invariant: its success path opens
the session (state 1), and every failure path nulls all four handles. -/
theorem writer_start_winv (pn q m e t : Bool) (w : WState) (h : WInv w) :
    WInv (writer_start pn q m e t w).2 := by
  obtain ⟨h1, h2, h3, h4⟩ := h
  unfold writer_start WInv
  by_cases hs : w.st = 0 <;>
    cases pn <;> cases q <;> cases m <;> cases e <;> cases t <;>
      simp [hs, h1, h2, h3, DEFAULT_ERROR]

/-- The initial module state satisfies the invariant. -/
theorem winv_init : WInv winit :=
  ⟨by simp [winit], by simp [winit], by decide, fun _ => rfl⟩

/-- Every reachable writer state satisfies the module invariant. -/
theorem reachable_winv (w : WState) (h : Reachable w) : WInv w := by
  induction h with
  | init => exact winv_init
  | start pn q m e t w hw ih => exact writer_start_winv pn q m e t w ih
  | push b w hw ih => exact writer_push_winv b w ih
  | puts s w hw ih => exact writer_puts_winv s w ih
  | finish w hw ih => exact writer_finish_winv w ih

/-!
List helpers describing consecutive in-place writes into a plane.
-/

/-- Setting index i and then taking i + 1 elements appends the new byte
to the first i elements. -/
theorem set_take_succ : ∀ (l : List UInt8) (i : Nat), i < l.length →
    ∀ b : UInt8, (l.set i b).take (i + 1) = l.take i ++ [b]
  | [], i, h, b => by simp at h
  | x :: xs, 0, h, b => by simp
  | x :: xs, i + 1, h, b => by
    have ih := set_take_succ xs i (by simpa using h) b
    simp [List.set, ih]

/-- Write the bytes of bs into l at consecutive indices starting at i
(the effect of repeated push_byte appends on the active plane). -/
def writeSeq : List UInt8 → Nat → List UInt8 → List UInt8
  | [], _, l => l
  | b :: bs, i, l => writeSeq bs (i + 1) (l.set i b)

/-- writeSeq preserves the length of the plane. -/
theorem writeSeq_length : ∀ (bs : List UInt8) (i : Nat) (l : List UInt8),
    (writeSeq bs i l).length = l.length
  | [], _, _ => rfl
  | b :: bs, i, l => by
    simp [writeSeq, writeSeq_length bs (i + 1) (l.set i b)]

/-- Taking the written region after a consecutive write returns the
untouched prefix followed by the written bytes. -/
theorem writeSeq_take : ∀ (bs : List UInt8) (i : Nat) (l : List UInt8),
    i + bs.length ≤ l.length →
    (writeSeq bs i l).take (i + bs.length) = l.take i ++ bs
  | [], i, l, h => by simp [writeSeq]
  | b :: bs, i, l, h => by
    have hlen : (b :: bs).length = bs.length + 1 := rfl
    have hlt : i < l.length := by rw [hlen] at h; omega
    have ih := writeSeq_take bs (i + 1) (l.set i b)
      (by rw [List.length_set]; rw [hlen] at h; omega)
    have harr : i + (b :: bs).length = (i + 1) + bs.length := by
      rw [hlen]; omega
    rw [writeSeq, harr, ih, set_take_succ l i hlt b]
    simp

/-- Appending one more byte to a consecutive write sets the next index. -/
theorem writeSeq_concat (z : UInt8) : ∀ (bs : List UInt8) (i : Nat)
    (l : List UInt8),
    writeSeq (bs ++ [z]) i l = (writeSeq bs i l).set (i + bs.length) z
  | [], i, l => by simp [writeSeq]
  | b :: bs, i, l => by
    have ih := writeSeq_concat z bs (i + 1) (l.set i b)
    have harr : i + (b :: bs).length = (i + 1) + bs.length := by
      simp only [List.length_cons]; omega
    simp only [List.cons_append, writeSeq]
    rw [harr]
    exact ih

/-- Replace the plane cur_buff points at (the store through cur_buff). -/
def setActive (w : WState) (l : List UInt8) : WState :=
  if w.cur then { w with plane2 := l } else { w with plane1 := l }

@[simp] theorem setActive_st (w : WState) (l : List UInt8) :
    (setActive w l).st = w.st := by
  unfold setActive; by_cases hc : w.cur <;> simp [hc]

@[simp] theorem setActive_mutex (w : WState) (l : List UInt8) :
    (setActive w l).mutex = w.mutex := by
  unfold setActive; by_cases hc : w.cur <;> simp [hc]

@[simp] theorem setActive_cur (w : WState) (l : List UInt8) :
    (setActive w l).cur = w.cur := by
  unfold setActive; by_cases hc : w.cur <;> simp [hc]

@[simp] theorem setActive_used (w : WState) (l : List UInt8) :
    (setActive w l).used = w.used := by
  unfold setActive; by_cases hc : w.cur <;> simp [hc]

@[simp] theorem setActive_sent (w : WState) (l : List UInt8) :
    (setActive w l).sent = w.sent := by
  unfold setActive; by_cases hc : w.cur <;> simp [hc]

@[simp] theorem setActive_active (w : WState) (l : List UInt8) :
    (setActive w l).active = l := by
  unfold setActive WState.active; by_cases hc : w.cur <;> simp [hc]

@[simp] theorem setActive_used_active (w : WState) (l : List UInt8) (u : Nat) :
    ({ setActive w l with used := u } : WState).active = l := by
  unfold setActive WState.active; by_cases hc : w.cur <;> simp [hc]

@[simp] theorem setActive_plane1 (w : WState) (l : List UInt8) :
    (setActive w l).plane1 = if w.cur then w.plane1 else l := by
  unfold setActive; by_cases hc : w.cur <;> simp [hc]

@[simp] theorem setActive_plane2 (w : WState) (l : List UInt8) :
    (setActive w l).plane2 = if w.cur then l else w.plane2 := by
  unfold setActive; by_cases hc : w.cur <;> simp [hc]

@[simp] theorem setActive_rot_active (w : WState) (l : List UInt8)
    (S : List Command) (u : Nat) :
    ({ setActive w l with sent := S, cur := !w.cur, used := u }
        : WState).active
      = (if w.cur then w.plane1 else w.plane2) := by
  unfold setActive WState.active
  by_cases hc : w.cur <;> simp [hc]

/-- push_byte below capacity: the byte is stored at index used of the
active plane, used increments, nothing is enqueued, dst is unchanged. -/
theorem push_byte_norot (b : UInt8) (d : Bool) (w : WState)
    (hN : w.used + 1 ≠ BUFF_SIZE) :
    push_byte b d w
      = (0, { setActive w ((w.active).set w.used b) with
                used := w.used + 1 }, d) := by
  unfold push_byte setActive WState.active
  by_cases hc : w.cur <;> simp [hc, hN]

/-- push_byte reaching capacity: the byte is stored, one OP_FLUSH
command for the filled plane is enqueued, cur_buff flips, used resets,
and the edge flag is raised. -/
theorem push_byte_rot (b : UInt8) (d : Bool) (w : WState)
    (hN : w.used + 1 = BUFF_SIZE) :
    push_byte b d w
      = (0, { setActive w ((w.active).set w.used b) with
                sent := w.sent ++
                  [⟨Op.OP_FLUSH, ((w.active).set w.used b).take BUFF_SIZE,
                    w.cur, BUFF_SIZE⟩],
                cur := !w.cur, used := 0 },
         if d = false then true else d) := by
  unfold push_byte setActive WState.active
  by_cases hc : w.cur <;> simp [hc, hN]

/-- A successful writer_push that does not fill the buffer: the byte is
stored at index used of the active plane, used increments, nothing is
enqueued, and dst receives false. -/
theorem writer_push_norot (b : UInt8) (w : WState) (hm : w.mutex = true)
    (hs : w.st = 1) (hN : w.used + 1 ≠ BUFF_SIZE) :
    writer_push b w =
      (0, { setActive w ((w.active).set w.used b) with used := w.used + 1 },
       some false) := by
  unfold writer_push push_byte setActive WState.active
  by_cases hc : w.cur <;> simp [hm, hs, hc, hN]

/-- A successful writer_push that fills the buffer: the byte is stored,
one OP_FLUSH command for the filled plane is enqueued, cur_buff flips to
the other plane, used resets to 0, and dst receives true. -/
theorem writer_push_rot (b : UInt8) (w : WState) (hm : w.mutex = true)
    (hs : w.st = 1) (hN : w.used + 1 = BUFF_SIZE) :
    writer_push b w =
      (0, { setActive w ((w.active).set w.used b) with
              sent := w.sent ++
                [⟨Op.OP_FLUSH, ((w.active).set w.used b).take BUFF_SIZE,
                  w.cur, BUFF_SIZE⟩],
              cur := !w.cur, used := 0 },
       some true) := by
  unfold writer_push push_byte setActive WState.active
  by_cases hc : w.cur <;> simp [hm, hs, hc, hN]

/-- A run of writer_push calls that never fills the buffer: the bytes
land at consecutive indices of the active plane, used advances by the
number of bytes, nothing is enqueued, and every call reports (0, false). -/
theorem pushRun_norot (bs : List UInt8) : ∀ (w : WState), w.mutex = true →
    w.st = 1 → w.used + bs.length < BUFF_SIZE →
    pushRun bs w =
      ({ setActive w (writeSeq bs w.used (w.active)) with
           used := w.used + bs.length },
       List.replicate bs.length (0, some false)) := by
  induction bs with
  | nil =>
    intro w hm hs hend
    obtain ⟨st, mutex, queue, events, task, p1, p2, cur, used, sent⟩ := w
    cases cur <;> simp [pushRun, setActive, WState.active, writeSeq]
  | cons b bs ih =>
    intro w hm hs hend
    simp only [List.length_cons] at hend
    have hN : w.used + 1 ≠ BUFF_SIZE := by omega
    have hw1 : ∃ w1 : WState,
        w1 = { setActive w ((w.active).set w.used b) with
                 used := w.used + 1 } := ⟨_, rfl⟩
    obtain ⟨w1, hw1⟩ := hw1
    have hp : writer_push b w = (0, w1, some false) := by
      rw [hw1]; exact writer_push_norot b w hm hs hN
    have key : pushRun (b :: bs) w
        = ((pushRun bs w1).1, (0, some false) :: (pushRun bs w1).2) := by
      show ((pushRun bs (writer_push b w).2.1).1,
            ((writer_push b w).1, (writer_push b w).2.2)
              :: (pushRun bs (writer_push b w).2.1).2)
          = ((pushRun bs w1).1, (0, some false) :: (pushRun bs w1).2)
      rw [hp]
    have ih2 := ih w1 (by rw [hw1]; simp [hm]) (by rw [hw1]; simp [hs])
      (by rw [hw1]; simp; omega)
    rw [key, ih2]
    simp only [Prod.mk.injEq]
    refine ⟨?_, by simp [List.replicate_succ]⟩
    rw [hw1]
    obtain ⟨st, mutex, queue, events, task, p1, p2, cur, used, sent⟩ := w
    cases cur <;>
      simp [setActive, WState.active, writeSeq, List.length_cons] <;>
      omega

/-- Running writer_push over a concatenation splits into two runs. -/
theorem pushRun_append (xs ys : List UInt8) : ∀ (w : WState),
    pushRun (xs ++ ys) w =
      ((pushRun ys (pushRun xs w).1).1,
       (pushRun xs w).2 ++ (pushRun ys (pushRun xs w).1).2) := by
  induction xs with
  | nil => intro w; simp [pushRun]
  | cons x xs ih => intro w; simp [pushRun, ih]

/-- A run of writer_push calls preserves the module invariant. -/
theorem pushRun_winv : ∀ (bs : List UInt8) (w : WState), WInv w →
    WInv (pushRun bs w).1
  | [], _, h => h
  | b :: bs, w, h => pushRun_winv bs (writer_push b w).2.1 (writer_push_winv b w h)

/-- With the error flag already set, the worker loop never issues a
physical write, and the flag never clears. -/
theorem task_loop_error (wOk sOk : Nat → Bool) :
    ∀ (cmds : List Command) (n : Nat),
    (writer_task_loop wOk sOk cmds true n).attempts = [] ∧
    (writer_task_loop wOk sOk cmds true n).error = true
  | [], n => by simp [writer_task_loop]
  | cmd :: rest, n => by
    have ih := task_loop_error wOk sOk rest n
    unfold writer_task_loop
    by_cases he : cmd.op = Op.OP_EXIT <;> simp [he, ih]

/-- Starting with no recorded error, the j-th physical write attempt of
the worker loop (oracle index n + j) happens only if every earlier
attempt's write and sync both succeeded: after the first failure no
further physical write is issued. -/
theorem task_loop_attempts (wOk sOk : Nat → Bool) :
    ∀ (cmds : List Command) (n : Nat) (j : Nat),
    j < (writer_task_loop wOk sOk cmds false n).attempts.length →
    ∀ i, i < j → wOk (n + i) = true ∧ sOk (n + i) = true
  | [], n, j, hj => by simp [writer_task_loop] at hj
  | cmd :: rest, n, j, hj => by
    intro i hi
    by_cases hz : cmd.size > 0
    · by_cases he : cmd.op = Op.OP_EXIT
      · exfalso
        simp [writer_task_loop, he, hz] at hj <;> omega
      · by_cases hok : (if wOk n then !(sOk n) else true) = false
        · have hw : wOk n = true := by
            by_cases hw : wOk n = true
            · exact hw
            · simp [hw] at hok
          have hsk : sOk n = true := by
            simp [hw] at hok
            exact hok
          rcases i with _ | i2
          · simpa using ⟨hw, hsk⟩
          · have hlen2 : j - 1 <
                (writer_task_loop wOk sOk rest false (n + 1)).attempts.length := by
              simp [writer_task_loop, he, hz, hok] at hj
              omega
            have := task_loop_attempts wOk sOk rest (n + 1) (j - 1) hlen2
              i2 (by omega)
            have harr : n + 1 + i2 = n + (i2 + 1) := by omega
            rw [harr] at this
            exact this
        · exfalso
          have hone := task_loop_error wOk sOk rest (n + 1)
          have hok2 : (if wOk n then !(sOk n) else true) = true := by
            revert hok
            by_cases hw : wOk n = true <;> by_cases hs2 : sOk n = true <;>
              simp [hw, hs2]
          simp [writer_task_loop, he, hz, hok2, hone.1] at hj <;> omega
    · by_cases he : cmd.op = Op.OP_EXIT
      · exfalso
        simp [writer_task_loop, he, hz] at hj <;> omega
      · have hj2 : j <
            (writer_task_loop wOk sOk rest false n).attempts.length := by
          simpa [writer_task_loop, he, hz] using hj
        exact task_loop_attempts wOk sOk rest n j hj2 i hi

/-- The worker loop consumes every command up to and including the
first OP_EXIT, and breaks out of the loop there. -/
theorem task_loop_consume (wOk sOk : Nat → Bool) (e : Command)
    (he : e.op = Op.OP_EXIT) :
    ∀ (pre post : List Command) (err : Bool) (n : Nat),
    (∀ c ∈ pre, c.op ≠ Op.OP_EXIT) →
    (writer_task_loop wOk sOk (pre ++ e :: post) err n).consumed
        = pre.length + 1 ∧
    (writer_task_loop wOk sOk (pre ++ e :: post) err n).exited = true
  | [], post, err, n, _ => by
    unfold writer_task_loop
    simp [he]
  | c :: pre, post, err, n, hp => by
    have hc : c.op ≠ Op.OP_EXIT := hp c (by simp)
    have ih := task_loop_consume wOk sOk e he pre post
    unfold writer_task_loop
    simp only [List.cons_append]
    by_cases hz : c.size > 0 <;>
      simp [hc, hz, ih _ _ (fun x hx => hp x (by simp [hx]))] <;> omega

/-- C7: on any command sequence whose first OP_EXIT is command e, the
worker (a) issues no physical write at all if the storage open failed,
(b) issues its j-th physical write only when every earlier write and
sync succeeded — so after the first open/write/sync failure no further
physical write is issued for the rest of the session — yet (c) it still
receives every command up to and including the OP_EXIT, and on the
OP_EXIT it closes the file, signals session completion and terminates,
so writer_finish still completes after an I/O error. -/
theorem claim_C7 (openOk : Bool) (wOk sOk : Nat → Bool)
    (pre post : List Command) (e : Command)
    (he : e.op = Op.OP_EXIT) (hp : ∀ c ∈ pre, c.op ≠ Op.OP_EXIT) :
    (openOk = false →
      (writer_task_run openOk wOk sOk (pre ++ e :: post)).attempts = []) ∧
    (∀ j, j < (writer_task_run openOk wOk sOk
                 (pre ++ e :: post)).attempts.length →
      ∀ i, i < j → wOk i = true ∧ sOk i = true) ∧
    (writer_task_run openOk wOk sOk (pre ++ e :: post)).consumed
        = pre.length + 1 ∧
    (writer_task_run openOk wOk sOk (pre ++ e :: post)).closed = true ∧
    (writer_task_run openOk wOk sOk (pre ++ e :: post)).signaled = true ∧
    (writer_task_run openOk wOk sOk (pre ++ e :: post)).terminated = true := by
  have hcons := task_loop_consume wOk sOk e he pre post (!openOk) 0 hp
  refine ⟨?_, ?_, ?_, ?_, ?_, ?_⟩
  · intro ho
    rw [ho]
    simp only [writer_task_run, Bool.not_false]
    exact (task_loop_error wOk sOk (pre ++ e :: post) 0).1
  · intro j hj i hi
    cases ho : openOk
    · exfalso
      rw [ho] at hj
      simp only [writer_task_run, Bool.not_false] at hj
      rw [(task_loop_error wOk sOk (pre ++ e :: post) 0).1] at hj
      simp at hj
    · rw [ho] at hj
      simp only [writer_task_run, Bool.not_true] at hj
      have h := task_loop_attempts wOk sOk (pre ++ e :: post) 0 j hj i hi
      simpa using h
  · exact hcons.1
  · exact hcons.2
  · exact hcons.2
  · exact hcons.2

/-- Witness for C7: one flush command whose physical write fails,
then the exit command; the worker still consumes both, closes, signals
and terminates, and only the single failing write was attempted. -/
theorem claim_C7_witness :
    (⟨Op.OP_EXIT, [], false, 0⟩ : Command).op = Op.OP_EXIT ∧
    (∀ c ∈ [(⟨Op.OP_FLUSH, [65], false, 1⟩ : Command)],
        c.op ≠ Op.OP_EXIT) ∧
    ((false = false →
      (writer_task_run false (fun _ => false) (fun _ => false)
        ([⟨Op.OP_FLUSH, [65], false, 1⟩] ++
          (⟨Op.OP_EXIT, [], false, 0⟩ : Command) :: [])).attempts = []) ∧
    (∀ j, j < (writer_task_run false (fun _ => false) (fun _ => false)
        ([⟨Op.OP_FLUSH, [65], false, 1⟩] ++
          (⟨Op.OP_EXIT, [], false, 0⟩ : Command) :: [])).attempts.length →
      ∀ i, i < j → (fun _ => false) i = true ∧ (fun _ => false) i = true) ∧
    (writer_task_run false (fun _ => false) (fun _ => false)
        ([⟨Op.OP_FLUSH, [65], false, 1⟩] ++
          (⟨Op.OP_EXIT, [], false, 0⟩ : Command) :: [])).consumed
        = [(⟨Op.OP_FLUSH, [65], false, 1⟩ : Command)].length + 1 ∧
    (writer_task_run false (fun _ => false) (fun _ => false)
        ([⟨Op.OP_FLUSH, [65], false, 1⟩] ++
          (⟨Op.OP_EXIT, [], false, 0⟩ : Command) :: [])).closed = true ∧
    (writer_task_run false (fun _ => false) (fun _ => false)
        ([⟨Op.OP_FLUSH, [65], false, 1⟩] ++
          (⟨Op.OP_EXIT, [], false, 0⟩ : Command) :: [])).signaled = true ∧
    (writer_task_run false (fun _ => false) (fun _ => false)
        ([⟨Op.OP_FLUSH, [65], false, 1⟩] ++
          (⟨Op.OP_EXIT, [], false, 0⟩ : Command) :: [])).terminated = true) :=
  ⟨rfl, by decide,
   claim_C7 false (fun _ => false) (fun _ => false)
     [⟨Op.OP_FLUSH, [65], false, 1⟩] [] ⟨Op.OP_EXIT, [], false, 0⟩
     rfl (by decide)⟩

/-- Invariant of an open writing session: session open, plane
capacities intact, fill length below capacity, and every command
enqueued so far is an OP_FLUSH whose payload length equals its size. -/
def SessInv (w : WState) : Prop :=
  w.mutex = true ∧ w.st = 1 ∧ w.plane1.length = BUFF_SIZE ∧
  w.plane2.length = BUFF_SIZE ∧ w.used < BUFF_SIZE ∧
  (∀ c ∈ w.sent, c.op = Op.OP_FLUSH ∧ c.data.length = c.size)

/-- The active plane keeps the buffer capacity. -/
theorem sess_active_length (w : WState) (h1 : w.plane1.length = BUFF_SIZE)
    (h2 : w.plane2.length = BUFF_SIZE) : (w.active).length = BUFF_SIZE := by
  unfold WState.active; by_cases hc : w.cur <;> simp [hc, h1, h2]

/-- One push_byte on an open session succeeds, preserves the session
invariant, and extends the session's accepted bytes by exactly the
pushed byte. -/
theorem push_byte_step (b : UInt8) (d : Bool) (w : WState) (h : SessInv w) :
    (push_byte b d w).1 = 0 ∧ SessInv (push_byte b d w).2.1 ∧
    bufferedBytes (push_byte b d w).2.1 = bufferedBytes w ++ [b] := by
  obtain ⟨hm, hs, h1, h2, h3, hsent⟩ := h
  have hal : (w.active).length = BUFF_SIZE := sess_active_length w h1 h2
  have hts := set_take_succ (w.active) w.used (by rw [hal]; exact h3) b
  by_cases hN : w.used + 1 = BUFF_SIZE
  · rw [push_byte_rot b d w hN]
    refine ⟨rfl, ⟨by simp [hm], by simp [hs], ?_, ?_, ?_, ?_⟩, ?_⟩
    · by_cases hc : w.cur <;>
        simp [hc, h1, h2, WState.active]
    · by_cases hc : w.cur <;>
        simp [hc, h1, h2, WState.active]
    · simp [BUFF_SIZE]
    · intro c hc
      simp only [setActive_sent] at hc
      rw [List.mem_append] at hc
      rcases hc with hc | hc
      · exact hsent c hc
      · simp at hc
        rw [hc]
        refine ⟨rfl, ?_⟩
        simp [List.length_take, List.length_set, hal]
    · unfold bufferedBytes sentBytes
      rw [setActive_rot_active, ← hN, hts]
      simp [List.append_assoc]
  · rw [push_byte_norot b d w hN]
    refine ⟨rfl, ⟨by simp [hm], by simp [hs], ?_, ?_, ?_, ?_⟩, ?_⟩
    · by_cases hc : w.cur <;>
        simp [hc, h1, h2, WState.active]
    · by_cases hc : w.cur <;>
        simp [hc, h1, h2, WState.active]
    · simp only [WState.used]
      omega
    · intro c hc
      simp only [setActive_sent] at hc
      exact hsent c hc
    · unfold bufferedBytes sentBytes
      rw [setActive_used_active]
      simp only [setActive_sent]
      rw [hts, List.append_assoc]

/-- The writer_puts loop on an open session succeeds, preserves the
session invariant, and extends the accepted bytes by the whole string. -/
theorem puts_loop_step : ∀ (s : List UInt8) (d : Bool) (w : WState),
    SessInv w →
    (puts_loop s d w).1 = 0 ∧ SessInv (puts_loop s d w).2.1 ∧
    bufferedBytes (puts_loop s d w).2.1 = bufferedBytes w ++ s
  | [], d, w, h => by simp [puts_loop, h]
  | b :: rest, d, w, h => by
    have hp := push_byte_step b d w h
    have ih := puts_loop_step rest (push_byte b d w).2.2
      (push_byte b d w).2.1 hp.2.1
    unfold puts_loop
    simp only [hp.1, ne_eq, not_true_eq_false, reduceIte]
    refine ⟨ih.1, ih.2.1, ?_⟩
    rw [ih.2.2, hp.2.2, List.append_assoc]
    rfl

/-- writer_push on an open session succeeds, preserves the session
invariant, and extends the accepted bytes by the pushed byte. -/
theorem writer_push_step (b : UInt8) (w : WState) (h : SessInv w) :
    (writer_push b w).1 = 0 ∧ SessInv (writer_push b w).2.1 ∧
    bufferedBytes (writer_push b w).2.1 = bufferedBytes w ++ [b] := by
  have hp := push_byte_step b false w h
  unfold writer_push
  simp [h.1, h.2.1, hp.1, hp.2.1, hp.2.2]

/-- writer_puts on an open session succeeds, preserves the session
invariant, and extends the accepted bytes by the string's bytes. -/
theorem writer_puts_step (s : List UInt8) (w : WState) (h : SessInv w) :
    (writer_puts s w).1 = 0 ∧ SessInv (writer_puts s w).2.1 ∧
    bufferedBytes (writer_puts s w).2.1 = bufferedBytes w ++ s := by
  have hp := puts_loop_step s false w h
  unfold writer_puts
  simp [h.1, h.2.1, hp.1, hp.2.1, hp.2.2]

/-- A run of writer_push/writer_puts calls on an open session: every
call succeeds, the session invariant is preserved, and the accepted
bytes grow by exactly the bytes passed, in call order. -/
theorem runCalls_step : ∀ (cs : List WCall) (w : WState), SessInv w →
    (runCalls cs w).2 = true ∧ SessInv (runCalls cs w).1 ∧
    bufferedBytes (runCalls cs w).1 = bufferedBytes w ++ callBytes cs
  | [], w, h => by simp [runCalls, callBytes, h]
  | WCall.push b :: cs, w, h => by
    have hp := writer_push_step b w h
    have ih := runCalls_step cs (writer_push b w).2.1 hp.2.1
    unfold runCalls callBytes
    simp only [hp.1, reduceIte]
    refine ⟨ih.1, ih.2.1, ?_⟩
    rw [ih.2.2, hp.2.2, List.append_assoc]
    rfl
  | WCall.puts s :: cs, w, h => by
    have hp := writer_puts_step s w h
    have ih := runCalls_step cs (writer_puts s w).2.1 hp.2.1
    unfold runCalls callBytes
    simp only [hp.1, reduceIte]
    refine ⟨ih.1, ih.2.1, ?_⟩
    rw [ih.2.2, hp.2.2, List.append_assoc]

/-- writer_finish when the mutex take succeeds: OP_EXIT for the active
plane and fill length is enqueued and everything is reset. -/
theorem writer_finish_open (w : WState) (hm : w.mutex = true) :
    writer_finish w =
      (0, { w with
              sent := w.sent ++
                [⟨Op.OP_EXIT, (w.active).take w.used, w.cur, w.used⟩],
              mutex := false, queue := false, events := false, task := false,
              cur := false, used := 0, st := 0 }) := by
  unfold writer_finish
  simp [hm]

/-- With a working storage file (open, write and sync always succeed),
the worker loop physically writes exactly the concatenation of the
payloads of the commands up to and including the final OP_EXIT. -/
theorem task_loop_allok : ∀ (pre : List Command) (e : Command) (n : Nat),
    e.op = Op.OP_EXIT → (∀ c ∈ pre, c.op ≠ Op.OP_EXIT) →
    (∀ c ∈ pre, c.data.length = c.size) → e.data.length = e.size →
    (writer_task_loop (fun _ => true) (fun _ => true) (pre ++ [e])
        false n).attempts.flatten
      = ((pre ++ [e]).map Command.data).flatten
  | [], e, n, he, _, _, hle => by
    unfold writer_task_loop
    by_cases hz : e.size > 0
    · simp [he, hz]
    · have h0 : e.data = [] := by
        have hz0 : e.data.length = 0 := by omega
        exact List.length_eq_zero.mp hz0
      simp [he, hz, h0]
  | c :: pre, e, n, he, hp, hl, hle => by
    have hc : c.op ≠ Op.OP_EXIT := hp c (by simp)
    have ih := fun m => task_loop_allok pre e m he
      (fun x hx => hp x (by simp [hx]))
      (fun x hx => hl x (by simp [hx])) hle
    unfold writer_task_loop
    simp only [List.cons_append]
    by_cases hz : c.size > 0
    · simp [hc, hz, ih (n + 1)]
    · have h0 : c.data = [] := by
        have hz0 : c.data.length = 0 := by
          have := hl c (by simp)
          omega
        exact List.length_eq_zero.mp hz0
      simp [hc, hz, h0, ih n]

/-- The freshly opened session satisfies the session invariant. -/
theorem sessinv_wopen : SessInv wopen := by
  have hw := reachable_winv wopen
    (Reachable.start false true true true true winit Reachable.init)
  refine ⟨by decide, by decide, hw.1, hw.2.1, by decide, ?_⟩
  intro c hc
  have hnil : wopen.sent = [] := rfl
  rw [hnil] at hc
  simp at hc

/-- The freshly opened session has accepted no bytes yet. -/
theorem wopen_buffered : bufferedBytes wopen = [] := by
  have hnil : wopen.sent = [] := rfl
  have hu : wopen.used = 0 := rfl
  unfold bufferedBytes sentBytes
  rw [hnil, hu]
  simp

/-- C8: in every reachable writer state the fill length is below the
buffer capacity (so it lies in the interval from 0 inclusive to the
capacity exclusive after every operation), the append index used by
push_byte is within the active plane's bounds, and both planes keep
their capacity. -/
theorem claim_C8 (w : WState) (h : Reachable w) :
    w.used < BUFF_SIZE ∧ w.used < (w.active).length ∧
    w.plane1.length = BUFF_SIZE ∧ w.plane2.length = BUFF_SIZE := by
  obtain ⟨h1, h2, h3, _⟩ := reachable_winv w h
  refine ⟨h3, ?_, h1, h2⟩
  unfold WState.active
  by_cases hc : w.cur <;> simp [hc, h1, h2, h3]

/-- Witness for C8 at the initial state. -/
theorem claim_C8_witness :
    winit.used < BUFF_SIZE ∧ winit.used < (winit.active).length ∧
    winit.plane1.length = BUFF_SIZE ∧ winit.plane2.length = BUFF_SIZE :=
  claim_C8 winit Reachable.init

/-- C3: in every reachable writer state with no open session (the state
variable differs from 1, as after a completed writer_finish), a further
writer_finish returns a nonzero error and leaves the module state
unchanged — nothing is enqueued, no storage write can result, and all
fields keep their values.  In such states the mutex handle is NULL, so
the take fails with a nonzero code and every later block of the
function is skipped. -/
theorem claim_C3 (w : WState) (h : Reachable w) (h1 : w.st ≠ 1) :
    (writer_finish w).1 ≠ 0 ∧ (writer_finish w).2 = w := by
  have hm : w.mutex = false := (reachable_winv w h).2.2.2 h1
  unfold writer_finish
  simp [hm, DEFAULT_ERROR]

/-- Witness for C3: a second writer_finish right after the one that
closed the session of a started writer. -/
theorem claim_C3_witness :
    Reachable (writer_finish wopen).2 ∧ (writer_finish wopen).2.st ≠ 1 ∧
    ((writer_finish (writer_finish wopen).2).1 ≠ 0 ∧
     (writer_finish (writer_finish wopen).2).2 = (writer_finish wopen).2) :=
  ⟨Reachable.finish wopen (Reachable.start false true true true true winit
      Reachable.init),
   by decide,
   claim_C3 (writer_finish wopen).2
     (Reachable.finish wopen (Reachable.start false true true true true winit
        Reachable.init))
     (by decide)⟩

/-- C10: writer_push and writer_puts invoked while no session is open
(the state variable differs from 1) return a nonzero error and leave
the module state fully unchanged — no byte appended, fill length and
active-plane selector untouched, nothing enqueued, dst not written. -/
theorem claim_C10 (b : UInt8) (s : List UInt8) (w : WState) (h : w.st ≠ 1) :
    writer_push b w = (DEFAULT_ERROR, w, none) ∧
    writer_puts s w = (DEFAULT_ERROR, w, none) ∧ DEFAULT_ERROR ≠ 0 := by
  unfold writer_push writer_puts
  by_cases hm : w.mutex <;> simp [hm, h, DEFAULT_ERROR]

/-- Witness for C10 at the initial state (no session open). -/
theorem claim_C10_witness :
    winit.st ≠ 1 ∧
    (writer_push 65 winit = (DEFAULT_ERROR, winit, none) ∧
     writer_puts [66, 67] winit = (DEFAULT_ERROR, winit, none) ∧
     DEFAULT_ERROR ≠ 0) :=
  ⟨by decide, claim_C10 65 [66, 67] winit (by decide)⟩

/-- C2 is refuted by the code: writer_start's final statement returns
the literal 0 regardless of the computed error code, so the
already-open-session case returns 0 rather than a nonzero StateError,
and its error-path cleanup deletes whatever handles are non-NULL — the
open session's queue, mutex, event group and task — leaving the state
variable at 1; a failed allocation likewise returns 0. -/
theorem claim_C2 :
    wopen.st = 1 ∧ wopen.mutex = true ∧ wopen.queue = true ∧
    wopen.events = true ∧ wopen.task = true ∧
    (writer_start false true true true true wopen).1 = 0 ∧
    (writer_start false true true true true wopen).2.mutex = false ∧
    (writer_start false true true true true wopen).2.queue = false ∧
    (writer_start false true true true true wopen).2.events = false ∧
    (writer_start false true true true true wopen).2.task = false ∧
    (writer_start false true true true true wopen).2.st = 1 ∧
    (writer_start false false true true true winit).1 = 0 ∧
    (writer_start false false true true true winit).2.st = 0 := by
  decide

/-- C6: a successful writer_finish on an open session with fill length
used enqueues, as the session's final command, exactly one OP_EXIT
command whose size is used and whose buffer reference is the active
plane, then releases every handle and resets the module to its
pre-start configuration (plane 1 active, fill length 0, state 0). -/
theorem claim_C6 (w : WState) (hm : w.mutex = true) (hs : w.st = 1)
    (hk : w.used < BUFF_SIZE) :
    writer_finish w =
      (0, { w with
              sent := w.sent ++
                [⟨Op.OP_EXIT, (w.active).take w.used, w.cur, w.used⟩],
              mutex := false, queue := false, events := false, task := false,
              cur := false, used := 0, st := 0 }) := by
  unfold writer_finish
  simp [hm]

/-- Witness for C6 at the freshly opened session (fill length 0). -/
theorem claim_C6_witness :
    wopen.mutex = true ∧ wopen.st = 1 ∧ wopen.used < BUFF_SIZE ∧
    writer_finish wopen =
      (0, { wopen with
              sent := wopen.sent ++
                [⟨Op.OP_EXIT, (wopen.active).take wopen.used, wopen.cur,
                  wopen.used⟩],
              mutex := false, queue := false, events := false, task := false,
              cur := false, used := 0, st := 0 }) :=
  ⟨by decide, by decide, by decide,
   claim_C6 wopen (by decide) (by decide) (by decide)⟩

/-- Inputs of the C4 scenario: a hold in Idle, then the bytes of
"abc" and a newline with no hold, then a newline with a simultaneous
hold. -/
def c4_inputs : List (Option UInt8 × Bool) :=
  [(none, true), (some 97, false), (some 98, false), (some 99, false),
   (some 10, false), (some 10, true)]

/-- C4: in the Recording state a newline byte with a simultaneous hold
pushes the newline, stops the writer (closing the sink), and moves
directly to Idle; and on the scenario inputs (hold; "abc" then newline;
newline with hold) the visited states are ReadyWait four times,
Recording once, then Idle, never entering FinishWait. -/
theorem claim_C4 :
    do_record_state_proc 10 true =
      (ST_IDLE, [SinkEvt.push 10, SinkEvt.finish]) ∧
    (run_ticks ST_IDLE c4_inputs).1 =
      [ST_READY, ST_READY, ST_READY, ST_READY, ST_RECORD, ST_IDLE] ∧
    ST_FIN ∉ (run_ticks ST_IDLE c4_inputs).1 := by
  refine ⟨by decide, ?_, ?_⟩ <;> decide

/-- C9 as stated is refuted at one input: in the Idle state a tick
carrying byte 0x00 together with a hold opens the sink and pushes the
byte-order marker and the CSV header, so it does not push nothing. -/
theorem claim_C9_cex :
    pushedBytes (loop_tick ST_IDLE (some 0) true).2 ≠ [] := by
  decide

/-- C9 amended: in every recorder state, a tick whose byte is 0x00 is
indistinguishable from a byte-less tick — identical next state and
identical sink operations — and the NUL byte itself is never pushed to
the sink in such a tick (never recorded, never a line boundary);
the tick may still push other bytes when the transition itself emits
them (opening the sink in Idle pushes the byte-order marker and
header). -/
theorem claim_C9 (st : Nat) (btn : Bool) :
    loop_tick st (some 0) btn = loop_tick st none btn ∧
    (0 : UInt8) ∉ pushedBytes (loop_tick st (some 0) btn).2 := by
  refine ⟨rfl, ?_⟩
  unfold loop_tick
  by_cases h0 : st = ST_IDLE
  · cases btn <;> simp [h0] <;> decide
  · by_cases h1 : st = ST_READY
    · cases btn <;> simp [h0, h1] <;> decide
    · by_cases h2 : st = ST_RECORD
      · cases btn <;> simp [h0, h1, h2] <;> decide
      · by_cases h3 : st = ST_FIN
        · cases btn <;> simp [h0, h1, h2, h3] <;> decide
        · simp [h0, h1, h2, h3, pushedBytes]

/-- C5: from an open session whose active buffer is empty, every run of
fewer than N writer_push calls (N = BUFF_SIZE) enqueues nothing and
reports the edge flag false on each call; a run of exactly N calls
reports false on the first N - 1 calls and true on the N-th, enqueues
exactly one OP_FLUSH command of size N whose payload is the N pushed
bytes and whose buffer reference is the plane that was active, and
flips the active plane with fill length 0; and one further call lands
its byte at the start of the other plane. -/
theorem claim_C5 (w : WState) (bs : List UInt8) (c : UInt8)
    (hw : WInv w) (hm : w.mutex = true) (hs : w.st = 1) (hu : w.used = 0)
    (hlen : bs.length = BUFF_SIZE) :
    (∀ k, k < BUFF_SIZE →
      (pushRun (bs.take k) w).1.sent = w.sent ∧
      (pushRun (bs.take k) w).2
        = List.replicate k ((0 : Nat), some false)) ∧
    ((pushRun bs w).1.sent
        = w.sent ++ [⟨Op.OP_FLUSH, bs, w.cur, BUFF_SIZE⟩] ∧
     (pushRun bs w).1.cur = (!w.cur) ∧
     (pushRun bs w).1.used = 0 ∧
     (pushRun bs w).2
        = List.replicate (BUFF_SIZE - 1) ((0 : Nat), some false)
            ++ [((0 : Nat), some true)]) ∧
    ((writer_push c (pushRun bs w).1).2.1.used = 1 ∧
     (writer_push c (pushRun bs w).1).2.1.cur = (!w.cur) ∧
     (writer_push c (pushRun bs w).1).2.1.sent
        = w.sent ++ [⟨Op.OP_FLUSH, bs, w.cur, BUFF_SIZE⟩] ∧
     ((writer_push c (pushRun bs w).1).2.1.active).take 1 = [c]) := by
  obtain ⟨h1, h2, h3, h4⟩ := hw
  have hB : BUFF_SIZE = 8192 := rfl
  have hact : w.active.length = BUFF_SIZE := by
    unfold WState.active; by_cases hc : w.cur <;> simp [hc, h1, h2]
  have part1 : ∀ k, k < BUFF_SIZE →
      (pushRun (bs.take k) w).1.sent = w.sent ∧
      (pushRun (bs.take k) w).2
        = List.replicate k ((0 : Nat), some false) := by
    intro k hk
    have ht : (bs.take k).length = k := by
      rw [List.length_take, hlen]; omega
    have hr := pushRun_norot (bs.take k) w hm hs (by rw [ht, hu]; omega)
    rw [hr, ht]
    exact ⟨by simp, rfl⟩
  have hbs0 : bs ≠ [] := by
    intro h; rw [h] at hlen; exact absurd hlen (by decide)
  obtain ⟨ys, z, hyz⟩ : ∃ L b, bs = L ++ [b] := by
    obtain h | ⟨L, b, h⟩ := List.eq_nil_or_concat bs
    · exact absurd h hbs0
    · exact ⟨L, b, by rw [h, List.concat_eq_append]⟩
  have hys : ys.length + 1 = BUFF_SIZE := by
    rw [hyz] at hlen; simpa using hlen
  obtain ⟨w1, hw1⟩ : ∃ w1 : WState,
      w1 = { setActive w (writeSeq ys w.used (w.active)) with
               used := w.used + ys.length } := ⟨_, rfl⟩
  have run1 : pushRun ys w
      = (w1, List.replicate ys.length ((0 : Nat), some false)) := by
    rw [hw1]; exact pushRun_norot ys w hm hs (by rw [hu]; omega)
  have hm1 : w1.mutex = true := by rw [hw1]; simp [hm]
  have hs1 : w1.st = 1 := by rw [hw1]; simp [hs]
  have hu1 : w1.used = ys.length := by rw [hw1]; simp [hu]
  have hc1 : w1.cur = w.cur := by rw [hw1]; simp
  have hsent1 : w1.sent = w.sent := by rw [hw1]; simp
  have hact1 : w1.active = writeSeq ys w.used w.active := by
    rw [hw1]; simp only [setActive_used_active]
  have hrot : w1.used + 1 = BUFF_SIZE := by rw [hu1]; omega
  obtain ⟨w2, hw2d⟩ : ∃ w2 : WState,
      w2 = { setActive w1 ((w1.active).set w1.used z) with
               sent := w1.sent ++
                 [⟨Op.OP_FLUSH, ((w1.active).set w1.used z).take BUFF_SIZE,
                   w1.cur, BUFF_SIZE⟩],
               cur := !w1.cur, used := 0 } := ⟨_, rfl⟩
  have run2 : writer_push z w1 = (0, w2, some true) := by
    rw [hw2d]; exact writer_push_rot z w1 hm1 hs1 hrot
  have hdata : ((w1.active).set w1.used z).take BUFF_SIZE = bs := by
    rw [hact1, hu1, hu]
    have e1 : (writeSeq ys 0 w.active).set (0 + ys.length) z
        = writeSeq (ys ++ [z]) 0 w.active :=
      (writeSeq_concat z ys 0 w.active).symm
    rw [show ys.length = 0 + ys.length from (Nat.zero_add _).symm, e1, ← hyz]
    have e2 := writeSeq_take bs 0 w.active (by simp [hact, hlen])
    simpa [hlen] using e2
  have hz : pushRun [z] w1 = (w2, [((0 : Nat), some true)]) := by
    show ((writer_push z w1).2.1,
          [((writer_push z w1).1, (writer_push z w1).2.2)]) = _
    rw [run2]
  have runAll : pushRun bs w
      = (w2, List.replicate ys.length ((0 : Nat), some false)
               ++ [((0 : Nat), some true)]) := by
    rw [hyz, pushRun_append ys [z] w]
    simp only [run1, hz]
  have hsent2 : w2.sent = w.sent ++ [⟨Op.OP_FLUSH, bs, w.cur, BUFF_SIZE⟩] := by
    rw [hw2d]; simp [hsent1, hc1, hdata]
  have hcur2 : w2.cur = !w.cur := by rw [hw2d, hc1]
  have hused2 : w2.used = 0 := by rw [hw2d]
  have hm2 : w2.mutex = true := by rw [hw2d]; simp [hm1]
  have hst2 : w2.st = 1 := by rw [hw2d]; simp [hs1]
  have hinv2 : WInv w2 := by
    have hh := pushRun_winv bs w ⟨h1, h2, h3, h4⟩
    rw [runAll] at hh; exact hh
  have hact2len : w2.active.length = BUFF_SIZE := by
    obtain ⟨g1, g2, _, _⟩ := hinv2
    unfold WState.active; by_cases hc : w2.cur <;> simp [hc, g1, g2]
  have hN3 : w2.used + 1 ≠ BUFF_SIZE := by rw [hused2]; omega
  have run3 : writer_push c w2
      = (0, { setActive w2 ((w2.active).set w2.used c) with
                used := w2.used + 1 }, some false) :=
    writer_push_norot c w2 hm2 hst2 hN3
  have hys1 : ys.length = BUFF_SIZE - 1 := by omega
  refine ⟨part1, ⟨?_, ?_, ?_, ?_⟩, ?_, ?_, ?_, ?_⟩
  · rw [runAll]; exact hsent2
  · rw [runAll]; exact hcur2
  · rw [runAll]; exact hused2
  · rw [runAll, hys1]
  · rw [runAll]
    show (writer_push c w2).2.1.used = 1
    rw [run3]
    simp [hused2]
  · rw [runAll]
    show (writer_push c w2).2.1.cur = !w.cur
    rw [run3]
    simp [hcur2]
  · rw [runAll]
    show (writer_push c w2).2.1.sent
        = w.sent ++ [⟨Op.OP_FLUSH, bs, w.cur, BUFF_SIZE⟩]
    rw [run3]
    simp [hsent2]
  · rw [runAll]
    show ((writer_push c w2).2.1.active).take 1 = [c]
    rw [run3, hused2]
    have hst := set_take_succ w2.active 0 (by rw [hact2len]; omega) c
    simp only [setActive_used_active]
    simpa using hst

/-- Witness for C5: the freshly opened session, 8192 identical bytes,
then one more byte. -/
theorem claim_C5_witness :
    WInv wopen ∧ wopen.mutex = true ∧ wopen.st = 1 ∧ wopen.used = 0 ∧
    (List.replicate BUFF_SIZE (65 : UInt8)).length = BUFF_SIZE ∧
    ((∀ k, k < BUFF_SIZE →
      (pushRun ((List.replicate BUFF_SIZE (65 : UInt8)).take k) wopen).1.sent
          = wopen.sent ∧
      (pushRun ((List.replicate BUFF_SIZE (65 : UInt8)).take k) wopen).2
          = List.replicate k ((0 : Nat), some false)) ∧
    ((pushRun (List.replicate BUFF_SIZE (65 : UInt8)) wopen).1.sent
        = wopen.sent ++
            [⟨Op.OP_FLUSH, List.replicate BUFF_SIZE (65 : UInt8),
              wopen.cur, BUFF_SIZE⟩] ∧
     (pushRun (List.replicate BUFF_SIZE (65 : UInt8)) wopen).1.cur
        = (!wopen.cur) ∧
     (pushRun (List.replicate BUFF_SIZE (65 : UInt8)) wopen).1.used = 0 ∧
     (pushRun (List.replicate BUFF_SIZE (65 : UInt8)) wopen).2
        = List.replicate (BUFF_SIZE - 1) ((0 : Nat), some false)
            ++ [((0 : Nat), some true)]) ∧
    ((writer_push 66
        (pushRun (List.replicate BUFF_SIZE (65 : UInt8)) wopen).1).2.1.used
          = 1 ∧
     (writer_push 66
        (pushRun (List.replicate BUFF_SIZE (65 : UInt8)) wopen).1).2.1.cur
          = (!wopen.cur) ∧
     (writer_push 66
        (pushRun (List.replicate BUFF_SIZE (65 : UInt8)) wopen).1).2.1.sent
          = wopen.sent ++
              [⟨Op.OP_FLUSH, List.replicate BUFF_SIZE (65 : UInt8),
                wopen.cur, BUFF_SIZE⟩] ∧
     ((writer_push 66
        (pushRun (List.replicate BUFF_SIZE (65 : UInt8)) wopen).1).2.1.active).take 1
          = [66])) :=
  ⟨reachable_winv wopen
     (Reachable.start false true true true true winit Reachable.init),
   by decide, by decide, by decide, by simp,
   claim_C5 wopen (List.replicate BUFF_SIZE (65 : UInt8)) 66
     (reachable_winv wopen
       (Reachable.start false true true true true winit Reachable.init))
     (by decide) (by decide) (by decide) (by simp)⟩


/-- C1: for any sequence of writer_push/writer_puts calls in the open
session begun by a successful writer_start, all of which succeed,
followed by writer_finish (which succeeds), a worker whose storage file
opens and whose writes and syncs all succeed (no IOError) physically
writes exactly the concatenation of the bytes passed to those calls, in
call order — commands are drained in enqueue order, no byte lost,
duplicated or reordered. -/
theorem claim_C1 (cs : List WCall) (w1 : WState)
    (hrun : runCalls cs wopen = (w1, true)) :
    (writer_finish w1).1 = 0 ∧
    (writer_task_run true (fun _ => true) (fun _ => true)
        ((writer_finish w1).2.sent)).attempts.flatten = callBytes cs := by
  have hstep := runCalls_step cs wopen sessinv_wopen
  have hw1 : (runCalls cs wopen).1 = w1 := by rw [hrun]
  rw [hw1] at hstep
  obtain ⟨-, hS, hbuf⟩ := hstep
  rw [wopen_buffered] at hbuf
  simp only [List.nil_append] at hbuf
  obtain ⟨hm, hs, h1, h2, h3, hsent⟩ := hS
  have hfin := writer_finish_open w1 hm
  have hal : w1.active.length = BUFF_SIZE := sess_active_length w1 h1 h2
  constructor
  · rw [hfin]
  · rw [hfin]
    have htr : ((0, { w1 with
        sent := w1.sent ++
          [⟨Op.OP_EXIT, (w1.active).take w1.used, w1.cur, w1.used⟩],
        mutex := false, queue := false, events := false, task := false,
        cur := false, used := 0, st := 0 }) : Nat × WState).2.sent
        = w1.sent ++
          [⟨Op.OP_EXIT, (w1.active).take w1.used, w1.cur, w1.used⟩] := rfl
    rw [htr]
    have hex : (⟨Op.OP_EXIT, (w1.active).take w1.used, w1.cur, w1.used⟩
        : Command).data.length
        = (⟨Op.OP_EXIT, (w1.active).take w1.used, w1.cur, w1.used⟩
            : Command).size := by
      simp only [List.length_take]
      rw [hal]
      omega
    have hallok := task_loop_allok w1.sent
      ⟨Op.OP_EXIT, (w1.active).take w1.used, w1.cur, w1.used⟩ 0 rfl
      (fun c hc => by rw [(hsent c hc).1]; simp)
      (fun c hc => (hsent c hc).2) hex
    simp only [writer_task_run, Bool.not_true]
    rw [hallok, ← hbuf]
    unfold bufferedBytes sentBytes
    simp

/-- Witness for C1: one writer_push of byte 65 and one writer_puts of
bytes 66, 67 in a fresh session; the worker stores exactly 65, 66, 67. -/
theorem claim_C1_witness :
    runCalls [WCall.push 65, WCall.puts [66, 67]] wopen
      = ((runCalls [WCall.push 65, WCall.puts [66, 67]] wopen).1, true) ∧
    ((writer_finish
        (runCalls [WCall.push 65, WCall.puts [66, 67]] wopen).1).1 = 0 ∧
     (writer_task_run true (fun _ => true) (fun _ => true)
        ((writer_finish
          (runCalls [WCall.push 65, WCall.puts [66, 67]] wopen).1).2.sent)).attempts.flatten
        = callBytes [WCall.push 65, WCall.puts [66, 67]]) :=
  ⟨rfl,
   claim_C1 [WCall.push 65, WCall.puts [66, 67]]
     (runCalls [WCall.push 65, WCall.puts [66, 67]] wopen).1 rfl⟩
